import Mathlib

set_option autoImplicit false

/-!
Verification development for the miko-manifest configuration engine.

The definitions below are a shallow embedding of the Go sources:
* `pkg/mikomanifest/build.go` — hierarchical config resolution
  (`LoadConfigWithResources`, `mergeConfigs`, `getIncludeKey`), template
  post-processing (`ProcessSimpleFile`) and the `Build` include loop;
* `pkg/mikomanifest/validate.go` — manifest validation
  (`validateKubernetesManifestsWithOutput` and its helpers);
* the schema registry file (`SchemaRegistry`, `LoadSchemas`, `loadFromURL`,
  `ValidateCustomResource`, `validateBasicCRStructure`).

File-system access, HTTP and the Kubernetes strict decoders are external
effects; they are modelled as explicit parameters (an `Fs` value, a `Net`
function, a `K8sLib` record of oracles).  Paths are plain strings;
`filepath.Join`/`filepath.Dir` are modelled for clean slash-separated paths
(no trailing slashes, no `..`), which is the shape of every path the claims
exercise.
-/

deriving instance DecidableEq for Except

namespace Miko

/-- `Variable` from build.go: one `name: value` pair of a config file. -/
structure Variable where
  Name : String
  Value : String
deriving Repr, DecidableEq

/-- `ListItem` from build.go: one item of a repeat list. -/
structure ListItem where
  Key : String
  Values : List Variable
deriving Repr, DecidableEq

/-- `Include` from build.go: a template file reference with repeat mode. -/
structure Include where
  File : String
  Repeat : String
  List : List ListItem
deriving Repr, DecidableEq

/-- `Config` from build.go.  `Environment` and `ConfigDir` are set
programmatically, the rest comes from the YAML file. -/
structure Config where
  Environment : String
  ConfigDir : String
  Resources : List String
  Schemas : List String
  Variables : List Variable
  Include : List Include
deriving Repr, DecidableEq

/-! ### String-keyed maps

Go code uses `map[string]T` with assignment semantics.  We model a map as an
association list; `upsert` is `m[k] = v` (replace in place or append) and
`lookupKey` is `m[k]`.  Go map iteration order is unspecified; the model
iterates in insertion order, and every claim proved about map-derived output
is order-independent (per-key values, duplicate freedom). -/

/-- Go map assignment `m[k] = v`: replace the binding of `k` or append it. -/
def upsert {κ α : Type} [DecidableEq κ] : List (κ × α) → κ → α → List (κ × α)
  | [], k, v => [(k, v)]
  | p :: rest, k, v => if p.1 = k then (k, v) :: rest else p :: upsert rest k v

/-- Go map read `m[k]`. -/
def lookupKey {κ α : Type} [DecidableEq κ] : List (κ × α) → κ → Option α
  | [], _ => none
  | p :: rest, k => if p.1 = k then some p.2 else lookupKey rest k

/-! ### mergeConfigs (build.go lines 482-559) -/

/-- The variable-insertion loops of `mergeConfigs`:
`for _, v := range vs { variableMap[v.Name] = v.Value }`. -/
def insertVariables (m : List (String × String)) (vs : List Variable) :
    List (String × String) :=
  vs.foldl (fun acc v => upsert acc v.Name v.Value) m

/-- The schema-merging loops of `mergeConfigs`: append each schema not seen
before.  (The Go code keeps a `schemaSet` map; since the set always holds
exactly the elements of the accumulated slice, membership in the accumulator
is the same test.) -/
def addSchemas (acc : List String) (xs : List String) : List String :=
  xs.foldl (fun a s => if s ∈ a then a else a ++ [s]) acc

/-- `getIncludeKey` from build.go: identity key of an include. -/
def getIncludeKey (inc : Include) : String :=
  if inc.Repeat ≠ "" ∧ inc.List ≠ [] then
    inc.File ++ ":" ++ inc.Repeat ++ ":" ++ (inc.List.headD (ListItem.mk "" [])).Key
  else
    inc.File

/-- The include-insertion loops of `mergeConfigs`:
`includeMap[getIncludeKey(inc)] = inc`. -/
def insertIncludes (m : List (String × Include)) (incs : List Include) :
    List (String × Include) :=
  incs.foldl (fun acc inc => upsert acc (getIncludeKey inc) inc) m

/-- `mergeConfigs` from build.go: override config wins on variable names and
include keys; schemas are unioned preserving first-seen order.  The result
struct of the Go code leaves `Environment`, `ConfigDir`, `Resources` at their
zero values. -/
def mergeConfigs (base override : Config) : Config :=
  let variableMap := insertVariables (insertVariables [] base.Variables) override.Variables
  let schemas := addSchemas (addSchemas [] base.Schemas) override.Schemas
  let includeMap := insertIncludes (insertIncludes [] base.Include) override.Include
  { Environment := ""
    ConfigDir := ""
    Resources := []
    Schemas := schemas
    Variables := variableMap.map (fun p => Variable.mk p.1 p.2)
    Include := includeMap.map (fun p => p.2) }

/-! ### Strings and paths

Go's `strings.HasPrefix` / `strings.HasSuffix` compare byte sequences; we model
them on the character lists underlying `String` (equivalent for the ASCII
delimiters used here, and directly computable).  `filepath.Join` /
`filepath.Dir` / `filepath.IsAbs` are modelled for clean slash-separated
paths. -/

/-- `strings.HasPrefix`. -/
def strHasAtStart (s pre : String) : Bool := pre.data.isPrefixOf s.data

/-- `strings.HasSuffix`. -/
def strHasAtEnd (s suf : String) : Bool := suf.data.reverse.isPrefixOf s.data.reverse

/-- Split a character list at every occurrence of `c`. -/
def splitCharList (c : Char) : List Char → List (List Char)
  | [] => [[]]
  | x :: xs =>
    if x = c then [] :: splitCharList c xs
    else
      match splitCharList c xs with
      | [] => [[x]]
      | g :: gs => (x :: g) :: gs

/-- The components of a slash-separated path. -/
def pathParts (p : String) : List String := (splitCharList '/' p.data).map String.mk

/-- Reassemble path components with slashes. -/
def joinSlash : List String → String
  | [] => ""
  | [x] => x
  | x :: xs => x ++ "/" ++ joinSlash xs

def isAbsPath (p : String) : Bool := strHasAtStart p "/"

def joinPath (d f : String) : String := if d = "" then f else d ++ "/" ++ f

def parentDir (p : String) : String :=
  let parts := pathParts p
  if parts.length ≤ 1 then "." else joinSlash parts.dropLast

/-- `resolveResourcePath` from build.go: absolute resource paths are used
as-is, relative ones are joined onto the directory of the declaring file. -/
def resolveResourcePath (configPath resource : String) : String :=
  if isAbsPath resource then resource else joinPath (parentDir configPath) resource

/-- The path computed by `loadConfigInternal`: `configDir/<env>.yaml`. -/
def envConfigPath (configDir env : String) : String :=
  joinPath configDir (env ++ ".yaml")

/-! ### File system model for config loading

`os.Stat` + `os.ReadFile` + `yaml.Unmarshal` on a config path collapse to one
lookup: a path either does not exist, is a YAML file that parses to a
`Config`, is a file whose YAML parse fails, or is a directory (whose listed
entry names `ReadDir` returns in sorted order). -/

inductive FsEntry where
  | config (cfg : Config)
  | badYaml
  | dir (entries : List String)
deriving Repr, DecidableEq

structure Fs where
  entries : List (String × FsEntry)
deriving Repr, DecidableEq

def Fs.stat (fs : Fs) (p : String) : Option FsEntry := lookupKey fs.entries p

/-- `isDirectory` from build.go: `os.Stat` succeeds and reports a directory. -/
def Fs.isDirectory (fs : Fs) (p : String) : Bool :=
  match fs.stat p with
  | some (.dir _) => true
  | _ => false

/-- Errors of config resolution.  Wrapping constructors mirror the
`fmt.Errorf("...: %w", err)` chains of build.go. -/
inductive LoadErr where
  | maxDepthExceeded (configPath : String)
  | circularDependency (configPath : String) (loadChain : List String)
  | notFound (configPath : String)
  | readFailed (configPath : String)
  | parseFailed (configPath : String)
  | resourceFailed (resourcePath : String) (inner : LoadErr)
  | directoryFailed (dirPath : String) (inner : LoadErr)
  | fileInDirFailed (filePath : String) (inner : LoadErr)
deriving Repr, DecidableEq

/-- Strip the `%w` wrappers to the underlying cause (Go `errors.Unwrap` chain). -/
def rootCause : LoadErr → LoadErr
  | .resourceFailed _ e => rootCause e
  | .directoryFailed _ e => rootCause e
  | .fileInDirFailed _ e => rootCause e
  | e => e

def isOkE {ε α : Type} : Except ε α → Bool
  | .ok _ => true
  | .error _ => false

/-- The YAML filename filter of `loadConfigFromDirectory`. -/
def isYamlName (s : String) : Bool := strHasAtEnd s ".yaml" || strHasAtEnd s ".yml"

/-- `maxDepth` constant of `LoadConfigWithResources`. -/
def maxDepth : Nat := 5

/-! ### LoadConfigWithResources (build.go lines 91-172)

The Go function recurses with `depth+1` and aborts as soon as
`depth > maxDepth`.  We reparametrize the depth counter as structural fuel
`gas = maxDepth + 1 - depth`: the abort condition `depth > maxDepth` is
exactly `gas = 0`, and every recursive call (which increments `depth` by one)
decrements `gas` by one.  `depth` has no other observable use (it only drives
the `showTree` indentation printing, which has no return value).  This makes
the definition structurally recursive and hence directly computable. -/

/-- The per-file loop body of `loadConfigFromDirectory`: load each collected
YAML file (at the same depth the directory was entered with) and merge it
into the accumulated base config. -/
def loadDirFiles (recur : String → List String → Except LoadErr Config)
    (chain : List String) :
    List String → Config → Except LoadErr Config
  | [], base => .ok base
  | f :: rest, base =>
    match recur f chain with
    | .error e => .error (.fileInDirFailed f e)
    | .ok rc => loadDirFiles recur chain rest (mergeConfigs base rc)

/-- The resource loop of `LoadConfigWithResources`: resolve each resource
path; a directory resource is expanded to its `*.yaml`/`*.yml` entries and
folded in, a file resource is loaded recursively and merged. -/
def loadResourceList (fs : Fs) (recur : String → List String → Except LoadErr Config)
    (configPath : String) (chain : List String) :
    List String → Config → Except LoadErr Config
  | [], base => .ok base
  | resource :: rest, base =>
    let rp := resolveResourcePath configPath resource
    match fs.stat rp with
    | some (.dir entries) =>
      match loadDirFiles recur chain ((entries.filter isYamlName).map (joinPath rp)) base with
      | .error e => .error (.directoryFailed rp e)
      | .ok base2 => loadResourceList fs recur configPath chain rest base2
    | _ =>
      match recur rp chain with
      | .error e => .error (.resourceFailed rp e)
      | .ok rc => loadResourceList fs recur configPath chain rest (mergeConfigs base rc)

/-- One level of `LoadConfigWithResources` after the depth guard: circular
dependency check, chain extension, stat/read/parse, resource processing and
the final merge in which the current file wins. -/
def loadStep (fs : Fs) (recur : String → List String → Except LoadErr Config)
    (configPath : String) (loadChain : List String) : Except LoadErr Config :=
  if configPath ∈ loadChain then
    .error (.circularDependency configPath loadChain)
  else
    let currentChain := loadChain ++ [configPath]
    match fs.stat configPath with
    | none => .error (.notFound configPath)
    | some .badYaml => .error (.parseFailed configPath)
    | some (.dir _) => .error (.readFailed configPath)
    | some (.config config) =>
      if config.Resources = [] then
        .ok config
      else
        match loadResourceList fs (recur) configPath currentChain config.Resources
            (Config.mk "" "" [] [] [] []) with
        | .error e => .error e
        | .ok base => .ok (mergeConfigs base config)

/-- Fuel-indexed resolution; `gas = 0` is the `depth > maxDepth` abort. -/
def loadGas (fs : Fs) : Nat → String → List String → Except LoadErr Config
  | 0, configPath, _ => .error (.maxDepthExceeded configPath)
  | g + 1, configPath, loadChain => loadStep fs (loadGas fs g) configPath loadChain

/-- `LoadConfigWithResources` from build.go, at an arbitrary starting depth. -/
def LoadConfigWithResources (fs : Fs) (configPath : String) (loadChain : List String)
    (depth : Nat) : Except LoadErr Config :=
  loadGas fs (maxDepth + 1 - depth) configPath loadChain

/-- `loadConfigInternal`: resolve `configDir/<env>.yaml` with an empty chain
at depth 0. -/
def loadConfigInternal (fs : Fs) (configDir env : String) : Except LoadErr Config :=
  LoadConfigWithResources fs (envConfigPath configDir env) [] 0

/-- Public `LoadConfig`: resolve, then annotate `Environment`/`ConfigDir`. -/
def LoadConfig (fs : Fs) (configDir env : String) : Except LoadErr Config :=
  match loadConfigInternal fs configDir env with
  | .error e => .error e
  | .ok cfg => .ok { cfg with Environment := env, ConfigDir := configDir }

/-! ### Specification-side characterizations of the merge -/

/-- Value of the last entry named `n` in a variable list (the entry a Go map
ends up holding after inserting the list in order). -/
def lastAssign : List Variable → String → Option String
  | [], _ => none
  | v :: vs, n =>
    match lastAssign vs n with
    | some x => some x
    | none => if v.Name = n then some v.Value else none

/-- The last include whose identity key is `k` in an include list. -/
def lastIncludeFor : List Include → String → Option Include
  | [], _ => none
  | inc :: incs, k =>
    match lastIncludeFor incs k with
    | some x => some x
    | none => if getIncludeKey inc = k then some inc else none

/-- First variable value for a name in a (duplicate-free) result list. -/
def firstVarValue : List Variable → String → Option String
  | [], _ => none
  | v :: vs, n => if v.Name = n then some v.Value else firstVarValue vs n

/-- First include for an identity key in a (duplicate-free) result list. -/
def firstIncludeFor : List Include → String → Option Include
  | [], _ => none
  | inc :: incs, k => if getIncludeKey inc = k then some inc else firstIncludeFor incs k

/-- Keep the first occurrence of every element, in order. -/
def dedupFirst : List String → List String
  | [] => []
  | x :: xs => x :: dedupFirst (xs.filter (fun y => y ≠ x))
termination_by l => l.length
decreasing_by simpa using Nat.lt_succ_of_le (List.length_filter_le _ _)

/-! ### The resource-dependency relation used by the cycle claim

`dependsStep fs p q` holds when config file `p` lists a resource whose
resolution makes the loader recurse into `q`: either the resolved resource
path itself (when it is not a directory), or a contained YAML file of the
resolved directory. -/

/-- The recursion targets one resource entry of `p` produces: the resolved
path itself when it is not a directory, or each contained YAML file when it
is. -/
def resourceTarget (fs : Fs) (p resource q : String) : Prop :=
  (fs.isDirectory (resolveResourcePath p resource) = false ∧
      q = resolveResourcePath p resource) ∨
    (∃ entries name, fs.stat (resolveResourcePath p resource) = some (.dir entries) ∧
      name ∈ entries ∧ isYamlName name = true ∧
      q = joinPath (resolveResourcePath p resource) name)

def dependsStep (fs : Fs) (p q : String) : Prop :=
  ∃ cfg resource, fs.stat p = some (.config cfg) ∧ resource ∈ cfg.Resources ∧
    resourceTarget fs p resource q

/-! ### Dynamic YAML values and the manifest validator (validate.go)

A parsed `map[string]interface{}` manifest is an association list of
string-keyed YAML values. -/

inductive Yaml where
  | null
  | str (s : String)
  | num (n : Int)
  | bool (b : Bool)
  | arr (items : List Yaml)
  | obj (fields : List (String × Yaml))

/-- A document parsed into `map[string]interface{}`. -/
def Manifest : Type := List (String × Yaml)

structure GroupVersion where
  group : String
  version : String
deriving Repr, DecidableEq

structure GVK where
  group : String
  version : String
  kind : String
deriving Repr, DecidableEq

/-- `schema.ParseGroupVersion` from apimachinery: empty or `/` parse to the
empty GroupVersion; zero slashes mean a bare version; one slash separates
group and version; more are an error. -/
def parseGroupVersion (gv : String) : Except String GroupVersion :=
  if gv = "" ∨ gv = "/" then .ok (GroupVersion.mk "" "")
  else
    match splitCharList '/' gv.data with
    | [v] => .ok (GroupVersion.mk "" (String.mk v))
    | [g, v] => .ok (GroupVersion.mk (String.mk g) (String.mk v))
    | _ => .error ("unexpected GroupVersion string: " ++ gv)

/-- A CustomResourceDefinition, flattened to the fields the code reads:
`crd.Spec.Group`, `crd.Spec.Names.Kind` and the names of
`crd.Spec.Versions`. -/
structure Crd where
  group : String
  kindName : String
  versions : List String
deriving Repr, DecidableEq

/-- `SchemaRegistry`: CRDs indexed by GroupVersionKind. -/
structure SchemaRegistry where
  crds : List (GVK × Crd)

/-- The native strict decoders (`k8syaml.UnmarshalStrict` into the typed
structs) and the `scheme.Scheme.New` lookup are external Kubernetes library
calls; they enter the model as oracles.  Each oracle returns the cleaned
error message, or `none` on success. -/
structure K8sLib where
  strictDeployment : Manifest → Option String
  strictService : Manifest → Option String
  strictConfigMap : Manifest → Option String
  strictSecret : Manifest → Option String
  strictPod : Manifest → Option String
  schemeHas : GVK → Bool

/-- `validateBasicStructure` from validate.go: `metadata` must exist, be an
object, and contain a string `name`. -/
def validateBasicStructure (manifest : Manifest) : Option String :=
  match lookupKey manifest "metadata" with
  | none => some "metadata field is required"
  | some (.obj fields) =>
    match lookupKey fields "name" with
    | none => some "metadata.name is required"
    | some (.str _) => none
    | some _ => some "metadata.name must be a string"
  | some _ => some "metadata must be an object"

/-- `validateWithKubernetesTypes` from validate.go: dispatch the five
well-known kinds to the strict native decoders; every other GVK gets the
basic structural validation (the code performs it both when the scheme knows
the type and when it does not — the marshal/unmarshal round trip is the
identity here). -/
def validateWithKubernetesTypes (lib : K8sLib) (manifest : Manifest) (gvk : GVK) :
    Option String :=
  if gvk.kind = "Deployment" ∧ gvk.group = "apps" ∧ gvk.version = "v1" then
    lib.strictDeployment manifest
  else if gvk.kind = "Service" ∧ gvk.group = "" ∧ gvk.version = "v1" then
    lib.strictService manifest
  else if gvk.kind = "ConfigMap" ∧ gvk.group = "" ∧ gvk.version = "v1" then
    lib.strictConfigMap manifest
  else if gvk.kind = "Secret" ∧ gvk.group = "" ∧ gvk.version = "v1" then
    lib.strictSecret manifest
  else if gvk.kind = "Pod" ∧ gvk.group = "" ∧ gvk.version = "v1" then
    lib.strictPod manifest
  else if lib.schemeHas gvk then validateBasicStructure manifest
  else validateBasicStructure manifest

/-- `validateKubernetesResource` from validate.go. -/
def validateKubernetesResource (lib : K8sLib) (manifest : Manifest) : Option String :=
  match lookupKey manifest "apiVersion" with
  | some (.str apiVersionStr) =>
    match lookupKey manifest "kind" with
    | some (.str kind) =>
      match parseGroupVersion apiVersionStr with
      | .error _ => some "invalid apiVersion"
      | .ok gv => validateWithKubernetesTypes lib manifest (GVK.mk gv.group gv.version kind)
    | _ => some "kind must be a string"
  | _ => some "apiVersion must be a string"

/-- `validateBasicCRStructure` from the schema registry file: like the basic
structure check, but an absent `spec` only prints a warning and is not an
error. -/
def validateBasicCRStructure (manifest : Manifest) (crd : Crd) : Option String :=
  match lookupKey manifest "metadata" with
  | none => some "metadata field is required"
  | some (.obj fields) =>
    match lookupKey fields "name" with
    | none => some "metadata.name is required"
    | some (.str _) => none
    | some _ => some "metadata.name must be a string"
  | some _ => some "metadata must be an object"

/-- `ValidateCustomResource`: `(recognized as custom resource, error)`. -/
def ValidateCustomResource (sr : SchemaRegistry) (manifest : Manifest) :
    Bool × Option String :=
  match lookupKey manifest "apiVersion" with
  | some (.str apiVersionStr) =>
    match lookupKey manifest "kind" with
    | some (.str kind) =>
      match parseGroupVersion apiVersionStr with
      | .error _ => (false, some "invalid apiVersion")
      | .ok gv =>
        match lookupKey sr.crds (GVK.mk gv.group gv.version kind) with
        | none => (false, none)
        | some crd => (true, validateBasicCRStructure manifest crd)
    | _ => (false, some "kind must be a string")
  | _ => (false, some "apiVersion must be a string")

/-- Did the metadata of a manifest pass the name requirement?  (Spec-side
restatement of the `metadata`/`metadata.name` contract.) -/
def crMetadataOk (manifest : Manifest) : Bool :=
  match lookupKey manifest "metadata" with
  | some (.obj fields) =>
    match lookupKey fields "name" with
    | some (.str _) => true
    | _ => false
  | _ => false

/-! ### The validation driver (`validateKubernetesManifestsWithOutput`)

One split chunk of a YAML file reaches the loop body in one of four shapes:
skipped because trimming left nothing, failed to parse into a map (syntax
error or non-mapping document), parsed to nil, or parsed to a manifest. -/

inductive VDoc where
  | blank
  | malformed
  | parsedNil
  | doc (manifest : Manifest)

/-- A file of the output directory: unreadable, or its split documents. -/
inductive VFile where
  | unreadable (name : String)
  | content (name : String) (docs : List VDoc)

/-- The non-custom-resource path of the loop body: count an error or a
validated manifest. -/
def basicCountStep (lib : K8sLib) (manifest : Manifest) (acc : Nat × Nat × Nat) :
    Nat × Nat × Nat :=
  match validateKubernetesResource lib manifest with
  | some _ => (acc.1 + 1, acc.2.1, acc.2.2)
  | none => (acc.1, acc.2.1 + 1, acc.2.2)

/-- The per-document loop body, accumulating
`(k8sErrors, k8sValidated, customResourcesValidated)`. -/
def vdocStep (lib : K8sLib) (registry : Option SchemaRegistry)
    (acc : Nat × Nat × Nat) (d : VDoc) : Nat × Nat × Nat :=
  match d with
  | .blank => acc
  | .malformed => (acc.1 + 1, acc.2.1, acc.2.2)
  | .parsedNil => acc
  | .doc manifest =>
    if (lookupKey manifest "apiVersion").isSome = false ∨
        (lookupKey manifest "kind").isSome = false then
      acc
    else
      match registry with
      | some sr =>
        match ValidateCustomResource sr manifest with
        | (true, some _) => (acc.1 + 1, acc.2.1, acc.2.2)
        | (true, none) => (acc.1, acc.2.1 + 1, acc.2.2 + 1)
        | (false, _) => basicCountStep lib manifest acc
      | none => basicCountStep lib manifest acc

/-- The per-file loop body: an unreadable file is one error, a readable one
folds the document loop over its chunks. -/
def vfileStep (lib : K8sLib) (registry : Option SchemaRegistry)
    (acc : Nat × Nat × Nat) (f : VFile) : Nat × Nat × Nat :=
  match f with
  | .unreadable _ => (acc.1 + 1, acc.2.1, acc.2.2)
  | .content _ docs => docs.foldl (vdocStep lib registry) acc

/-- `validateKubernetesManifestsWithOutput`: `true` iff `k8sErrors == 0`
after scanning everything (an empty directory is immediately `true`). -/
def validateKubernetesManifests (lib : K8sLib) (registry : Option SchemaRegistry)
    (files : List VFile) : Bool :=
  if files.isEmpty then true
  else (files.foldl (vfileStep lib registry) (0, 0, 0)).1 = 0

/-- Spec-side: does one document count as an error? -/
def docError (lib : K8sLib) (registry : Option SchemaRegistry) : VDoc → Bool
  | .blank => false
  | .malformed => true
  | .parsedNil => false
  | .doc manifest =>
    if (lookupKey manifest "apiVersion").isSome = false ∨
        (lookupKey manifest "kind").isSome = false then
      false
    else
      match registry with
      | some sr =>
        match ValidateCustomResource sr manifest with
        | (true, some _) => true
        | (true, none) => false
        | (false, _) => (validateKubernetesResource lib manifest).isSome
      | none => (validateKubernetesResource lib manifest).isSome

/-- Spec-side: errors contributed by one file. -/
def fileErrors (lib : K8sLib) (registry : Option SchemaRegistry) : VFile → Nat
  | .unreadable _ => 1
  | .content _ docs => (docs.map (fun d => if docError lib registry d then 1 else 0)).sum

/-! ### The schema registry loader (LoadSchemas and friends) -/

/-- One split chunk of a schema source, as `parseCRD` sees it: skipped blank,
a non-CRD document, an unparsable document, or a CRD. -/
inductive SchemaDoc where
  | blank
  | nonCrd
  | malformed
  | crd (c : Crd)

/-- `parseCRD` outcome used by `loadFromContent`: only a CRD document
registers; every failure is silently skipped. -/
def parseCRDResult : SchemaDoc → Option Crd
  | .crd c => some c
  | _ => none

/-- `registerCRD`: register the CRD once per declared version. -/
def registerCRD (reg : SchemaRegistry) (c : Crd) : SchemaRegistry :=
  SchemaRegistry.mk
    (c.versions.foldl (fun m v => upsert m (GVK.mk c.group v c.kindName) c) reg.crds)

def registerAll (reg : SchemaRegistry) (cs : List Crd) : SchemaRegistry :=
  cs.foldl registerCRD reg

/-- `loadFromContent`: register every CRD document, count registrations. -/
def loadFromContent (reg : SchemaRegistry) (docs : List SchemaDoc) :
    SchemaRegistry × Nat :=
  docs.foldl
    (fun acc d =>
      match parseCRDResult d with
      | none => acc
      | some c => (registerCRD acc.1 c, acc.2 + 1))
    (reg, 0)

/-- Result of the single HTTP GET of `loadFromURL`. -/
inductive HttpResult where
  | transportError
  | response (status : Nat) (body : List SchemaDoc)

def Net : Type := String → HttpResult

/-- `loadFromURL`: transport errors fail, and any status other than exactly
`http.StatusOK` (200) fails. -/
def loadFromURL (net : Net) (reg : SchemaRegistry) (url : String) :
    Except String (SchemaRegistry × Nat) :=
  match net url with
  | .transportError => .error ("failed to download from " ++ url)
  | .response status body =>
    if status ≠ 200 then
      .error ("HTTP " ++ toString status ++ " when downloading from " ++ url)
    else
      .ok (loadFromContent reg body)

/-- A schema source on disk: a readable file, or a directory whose recursive
walk found the given regular files (path and parsed chunks). -/
inductive SchemaSrcEntry where
  | file (docs : List SchemaDoc)
  | dir (files : List (String × List SchemaDoc))

def SchemaFs : Type := String → Option SchemaSrcEntry

/-- `isURL` from the schema registry file. -/
def isURL (s : String) : Bool := strHasAtStart s "http://" || strHasAtStart s "https://"

/-- The walk filter of `loadFromDirectory`: lower-cased path ends in
`.yaml`/`.yml`. -/
def isYamlLower (s : String) : Bool :=
  let l := String.mk (s.data.map Char.toLower)
  strHasAtEnd l ".yaml" || strHasAtEnd l ".yml"

/-- `loadFromDirectory`: fold `loadFromFile` over the walked YAML files; a
per-file failure is only a warning (files here are readable by
construction). -/
def loadFromDirectory (reg : SchemaRegistry) (files : List (String × List SchemaDoc)) :
    SchemaRegistry × Nat :=
  files.foldl
    (fun acc f =>
      if isYamlLower f.1 then
        let r := loadFromContent acc.1 f.2
        (r.1, acc.2 + r.2)
      else acc)
    (reg, 0)

/-- `loadFromSource`: dispatch on URL / directory / file. -/
def loadFromSource (net : Net) (sfs : SchemaFs) (reg : SchemaRegistry)
    (source : String) : Except String (SchemaRegistry × Nat) :=
  if isURL source then loadFromURL net reg source
  else
    match sfs source with
    | none => .error ("source not accessible: " ++ source)
    | some (.dir files) => .ok (loadFromDirectory reg files)
    | some (.file docs) => .ok (loadFromContent reg docs)

/-- `LoadSchemas`: best-effort over all sources; a failing source is a
printed warning and is skipped; the function itself always returns nil
error, hence always `.ok`. -/
def LoadSchemas (net : Net) (sfs : SchemaFs) (reg : SchemaRegistry)
    (sources : List String) : Except String SchemaRegistry :=
  let final := sources.foldl
    (fun acc src =>
      match loadFromSource net sfs acc.1 src with
      | .error _ => acc
      | .ok r => (r.1, acc.2 + r.2))
    (reg, 0)
  .ok final.1

/-- Spec-side: does a source load without error? -/
def sourceLoadOk (net : Net) (sfs : SchemaFs) (source : String) : Bool :=
  if isURL source then
    match net source with
    | .response st _ => st = 200
    | .transportError => false
  else (sfs source).isSome

/-- Spec-side: the CRDs a source contributes, independent of registry state. -/
def sourceCrds (net : Net) (sfs : SchemaFs) (source : String) : List Crd :=
  if isURL source then
    match net source with
    | .response _ body => body.filterMap parseCRDResult
    | .transportError => []
  else
    match sfs source with
    | some (.file docs) => docs.filterMap parseCRDResult
    | some (.dir files) =>
      (files.filter (fun f => isYamlLower f.1)).flatMap (fun f => f.2.filterMap parseCRDResult)
    | none => []

/-! ### Template post-processing (ProcessSimpleFile, build.go 226-249)

`text/template` parsing and execution are external; a `RenderOracle` maps
template content and the variable map to the rendered text (or fails).
`ProcessSimpleFile` returns the content written to
`outputDir/<basename(file)>`. -/

def RenderOracle : Type := String → List (String × String) → Option String

/-- The trailing-newline fixup of `ProcessSimpleFile`: append one newline
only when the rendered text does not already end with one. -/
def ensureTrailingNewline (s : String) : String :=
  if strHasAtEnd s "\n" then s else s ++ "\n"

/-- `ProcessSimpleFile`: render, fix the trailing newline, write. -/
def ProcessSimpleFile (render : RenderOracle) (content : String)
    (vars : List (String × String)) : Option String :=
  match render content vars with
  | none => none
  | some rendered => some (ensureTrailingNewline rendered)

/-- The identity-rendering oracle: a template with no directives renders to
itself. -/
def renderId : RenderOracle := fun content _ => some content

/-! ### The include loop of Build (build.go 375-397) -/

inductive BuildErr where
  | unknownRepeatType (r : String)
  | includeFailed (msg : String)
deriving Repr, DecidableEq

/-- Outcomes of `ProcessSimpleFile` / `ProcessSameFileRepeat` /
`ProcessMultipleFilesRepeat` for a given include (file I/O and rendering are
external). -/
structure IncludeProcessors where
  simpleFile : Include → Except BuildErr Unit
  sameFileRepeat : Include → Except BuildErr Unit
  multipleFilesRepeat : Include → Except BuildErr Unit

/-- The switch on `include.Repeat` in `Build`. -/
def processOneInclude (procs : IncludeProcessors) (inc : Include) :
    Except BuildErr Unit :=
  if inc.Repeat = "" then procs.simpleFile inc
  else if inc.Repeat = "same-file" then procs.sameFileRepeat inc
  else if inc.Repeat = "multiple-files" then procs.multipleFilesRepeat inc
  else .error (.unknownRepeatType inc.Repeat)

/-- The include loop of `Build`: process in order, returning the first
error. -/
def processIncludeList (procs : IncludeProcessors) : List Include → Except BuildErr Unit
  | [] => .ok ()
  | inc :: rest =>
    match processOneInclude procs inc with
    | .error e => .error e
    | .ok _ => processIncludeList procs rest

/-! ### Concrete fixtures used by counterexamples and witnesses -/

/-- A config that only lists resources. -/
def cfgRes (rs : List String) : Config := Config.mk "" "" rs [] [] []

/-- A config with only variables. -/
def cfgVars (vs : List Variable) : Config := Config.mk "" "" [] [] vs []

/-- A dependency cycle of length six: `a → b1 → b2 → b3 → b4 → b5 → a`. -/
def fsCycleSix : Fs := Fs.mk
  [("/cfg/a.yaml", .config (cfgRes ["b1.yaml"])),
   ("/cfg/b1.yaml", .config (cfgRes ["b2.yaml"])),
   ("/cfg/b2.yaml", .config (cfgRes ["b3.yaml"])),
   ("/cfg/b3.yaml", .config (cfgRes ["b4.yaml"])),
   ("/cfg/b4.yaml", .config (cfgRes ["b5.yaml"])),
   ("/cfg/b5.yaml", .config (cfgRes ["a.yaml"]))]

/-- A direct self-cycle: `a → a`. -/
def fsSelfCycle : Fs := Fs.mk [("/cfg/a.yaml", .config (cfgRes ["a.yaml"]))]

/-- A linear chain of five configs `c0 → c1 → c2 → c3 → c4`. -/
def fsChainFive : Fs := Fs.mk
  [("/cfg/c0.yaml", .config (cfgRes ["c1.yaml"])),
   ("/cfg/c1.yaml", .config (cfgRes ["c2.yaml"])),
   ("/cfg/c2.yaml", .config (cfgRes ["c3.yaml"])),
   ("/cfg/c3.yaml", .config (cfgRes ["c4.yaml"])),
   ("/cfg/c4.yaml", .config (cfgVars [Variable.mk "lvl" "4"]))]

/-- A linear chain of six configs `c0 → ... → c5`. -/
def fsChainSix : Fs := Fs.mk
  [("/cfg/c0.yaml", .config (cfgRes ["c1.yaml"])),
   ("/cfg/c1.yaml", .config (cfgRes ["c2.yaml"])),
   ("/cfg/c2.yaml", .config (cfgRes ["c3.yaml"])),
   ("/cfg/c3.yaml", .config (cfgRes ["c4.yaml"])),
   ("/cfg/c4.yaml", .config (cfgRes ["c5.yaml"])),
   ("/cfg/c5.yaml", .config (cfgVars [Variable.mk "lvl" "5"]))]

/-- A linear chain of seven configs `c0 → ... → c6`. -/
def fsChainSeven : Fs := Fs.mk
  [("/cfg/c0.yaml", .config (cfgRes ["c1.yaml"])),
   ("/cfg/c1.yaml", .config (cfgRes ["c2.yaml"])),
   ("/cfg/c2.yaml", .config (cfgRes ["c3.yaml"])),
   ("/cfg/c3.yaml", .config (cfgRes ["c4.yaml"])),
   ("/cfg/c4.yaml", .config (cfgRes ["c5.yaml"])),
   ("/cfg/c5.yaml", .config (cfgRes ["c6.yaml"])),
   ("/cfg/c6.yaml", .config (cfgVars [Variable.mk "lvl" "6"]))]

/-- Is the root cause of a failed resolution the circular-dependency error? -/
def isCircularCause (r : Except LoadErr Config) : Bool :=
  match r with
  | .error e =>
    match rootCause e with
    | .circularDependency _ _ => true
    | _ => false
  | .ok _ => false

/-- Is the root cause of a failed resolution the max-depth error? -/
def isMaxDepthCause (r : Except LoadErr Config) : Bool :=
  match r with
  | .error e =>
    match rootCause e with
    | .maxDepthExceeded _ => true
    | _ => false
  | .ok _ => false

/-- An empty file system. -/
def fsEmpty : Fs := Fs.mk []

/-- A resource-free config that lists the variable name `a` twice and the
same include twice. -/
def cfgDup : Config :=
  Config.mk "" "" [] []
    [Variable.mk "a" "1", Variable.mk "a" "2"]
    [Include.mk "f.yaml" "" [], Include.mk "f.yaml" "" []]

def fsDup : Fs := Fs.mk [("/cfg/dup.yaml", .config cfgDup)]

/-- A base config for exercising the merge. -/
def cfgMergeBase : Config :=
  Config.mk "" "" [] ["s1.yaml", "s2.yaml"]
    [Variable.mk "x" "1", Variable.mk "y" "2"]
    [Include.mk "dep.yaml" "" [], Include.mk "svc.yaml" "" []]

/-- An override config for exercising the merge. -/
def cfgMergeOver : Config :=
  Config.mk "" "" [] ["s2.yaml", "s3.yaml"]
    [Variable.mk "x" "9"]
    [Include.mk "dep.yaml" "" []]

/-- A `K8sLib` whose strict decoders always succeed and whose scheme knows
nothing. -/
def lib0 : K8sLib :=
  K8sLib.mk (fun _ => none) (fun _ => none) (fun _ => none) (fun _ => none)
    (fun _ => none) (fun _ => false)

def crdWidget : Crd := Crd.mk "example.com" "Widget" ["v1"]

def regWidget : SchemaRegistry :=
  SchemaRegistry.mk [(GVK.mk "example.com" "v1" "Widget", crdWidget)]

/-- A well-formed Widget custom resource without a `spec` section. -/
def mWidgetOk : Manifest :=
  [("apiVersion", Yaml.str "example.com/v1"), ("kind", Yaml.str "Widget"),
   ("metadata", Yaml.obj [("name", Yaml.str "w1")])]

/-- A Widget custom resource whose metadata has no name. -/
def mWidgetNoName : Manifest :=
  [("apiVersion", Yaml.str "example.com/v1"), ("kind", Yaml.str "Widget"),
   ("metadata", Yaml.obj []), ("spec", Yaml.obj [])]

/-- A document with neither apiVersion nor kind. -/
def mOnlyMetadata : Manifest := [("metadata", Yaml.obj [("name", Yaml.str "m")])]

def reg0 : SchemaRegistry := SchemaRegistry.mk []

def net201 : Net := fun _ => HttpResult.response 201 [SchemaDoc.crd crdWidget]

def net200 : Net := fun _ => HttpResult.response 200 [SchemaDoc.crd crdWidget]

def netDown : Net := fun _ => HttpResult.transportError

def sfsEmpty : SchemaFs := fun _ => none

/-- Include processors that always succeed. -/
def procsOk : IncludeProcessors :=
  IncludeProcessors.mk (fun _ => Except.ok ()) (fun _ => Except.ok ())
    (fun _ => Except.ok ())

def incSimple : Include := Include.mk "dep.yaml" "" []

def incBad : Include := Include.mk "svc.yaml" "weird-mode" []

/-! ## Lemmas about the association-list map model -/

theorem lookupKey_upsert {κ α : Type} [DecidableEq κ] (m : List (κ × α)) (k : κ) (v : α)
    (n : κ) : lookupKey (upsert m k v) n = if k = n then some v else lookupKey m n := by
  induction m with
  | nil => simp [upsert, lookupKey]
  | cons p rest ih =>
    simp only [upsert]
    by_cases h : p.1 = k
    · rw [if_pos h]
      by_cases h2 : k = n
      · simp [lookupKey, h2]
      · have hp : ¬ p.1 = n := by rw [h]; exact h2
        simp [lookupKey, h2, hp]
    · rw [if_neg h]
      by_cases h2 : p.1 = n
      · have hk : ¬ k = n := fun hkn => h (h2.trans hkn.symm)
        simp [lookupKey, h2, hk]
      · simp [lookupKey, h2, ih]

theorem mem_upsert {κ α : Type} [DecidableEq κ] (m : List (κ × α)) (k : κ) (v : α)
    (p : κ × α) (h : p ∈ upsert m k v) : p = (k, v) ∨ p ∈ m := by
  induction m with
  | nil => simpa [upsert] using h
  | cons q rest ih =>
    by_cases hq : q.1 = k
    · simp [upsert, hq] at h
      rcases h with h | h
      · exact Or.inl h
      · exact Or.inr (List.mem_cons_of_mem _ h)
    · simp [upsert, hq] at h
      rcases h with h | h
      · refine Or.inr ?_
        rw [h]
        exact List.mem_cons_self q rest
      · rcases ih h with h2 | h2
        · exact Or.inl h2
        · exact Or.inr (List.mem_cons_of_mem _ h2)

/-! ## Lemmas about the variable merge -/

theorem lookupKey_insertVariables (vs : List Variable) (m : List (String × String))
    (n : String) :
    lookupKey (insertVariables m vs) n =
      match lastAssign vs n with
      | some x => some x
      | none => lookupKey m n := by
  induction vs generalizing m with
  | nil => simp [insertVariables, lastAssign]
  | cons v vs ih =>
    have hstep : insertVariables m (v :: vs) = insertVariables (upsert m v.Name v.Value) vs := rfl
    rw [hstep, ih, lookupKey_upsert]
    cases h : lastAssign vs n with
    | some x => simp [lastAssign, h]
    | none =>
      by_cases hv : v.Name = n
      · simp [lastAssign, h, hv]
      · simp [lastAssign, h, hv]

theorem lastAssign_isSome (vs : List Variable) (n : String)
    (h : n ∈ vs.map Variable.Name) : (lastAssign vs n).isSome = true := by
  induction vs with
  | nil => simp at h
  | cons v vs ih =>
    cases hl : lastAssign vs n with
    | some x => simp [lastAssign, hl]
    | none =>
      simp at h
      rcases h with h | h
      · subst h
        simp [lastAssign, hl]
      · have := ih (by simpa using h)
        rw [hl] at this
        simp at this

theorem firstVarValue_map (m : List (String × String)) (n : String) :
    firstVarValue (m.map (fun p => Variable.mk p.1 p.2)) n = lookupKey m n := by
  induction m with
  | nil => simp [firstVarValue, lookupKey]
  | cons p rest ih =>
    by_cases h : p.1 = n <;> simp [firstVarValue, lookupKey, h, ih]

/-! ## Lemmas about the include merge -/

theorem lookupKey_insertIncludes (incs : List Include) (m : List (String × Include))
    (k : String) :
    lookupKey (insertIncludes m incs) k =
      match lastIncludeFor incs k with
      | some x => some x
      | none => lookupKey m k := by
  induction incs generalizing m with
  | nil => simp [insertIncludes, lastIncludeFor]
  | cons inc incs ih =>
    have hstep : insertIncludes m (inc :: incs) =
        insertIncludes (upsert m (getIncludeKey inc) inc) incs := rfl
    rw [hstep, ih, lookupKey_upsert]
    cases h : lastIncludeFor incs k with
    | some x => simp [lastIncludeFor, h]
    | none =>
      by_cases hv : getIncludeKey inc = k
      · simp [lastIncludeFor, h, hv]
      · simp [lastIncludeFor, h, hv]

theorem lastIncludeFor_isSome (incs : List Include) (k : String)
    (h : k ∈ incs.map getIncludeKey) : (lastIncludeFor incs k).isSome = true := by
  induction incs with
  | nil => simp at h
  | cons inc incs ih =>
    cases hl : lastIncludeFor incs k with
    | some x => simp [lastIncludeFor, hl]
    | none =>
      simp at h
      rcases h with h | h
      · subst h
        simp [lastIncludeFor, hl]
      · have := ih (by simpa using h)
        rw [hl] at this
        simp at this

theorem insertIncludes_keyConsistent (incs : List Include) (m : List (String × Include))
    (hm : ∀ p ∈ m, getIncludeKey p.2 = p.1) :
    ∀ p ∈ insertIncludes m incs, getIncludeKey p.2 = p.1 := by
  induction incs generalizing m with
  | nil => simpa [insertIncludes] using hm
  | cons inc incs ih =>
    have hstep : insertIncludes m (inc :: incs) =
        insertIncludes (upsert m (getIncludeKey inc) inc) incs := rfl
    rw [hstep]
    refine ih _ ?_
    intro p hp
    rcases mem_upsert _ _ _ _ hp with h | h
    · rw [h]
    · exact hm p h

theorem firstIncludeFor_map (m : List (String × Include)) (k : String)
    (hm : ∀ p ∈ m, getIncludeKey p.2 = p.1) :
    firstIncludeFor (m.map Prod.snd) k = lookupKey m k := by
  induction m with
  | nil => simp [firstIncludeFor, lookupKey]
  | cons p rest ih =>
    have hp := hm p (List.mem_cons_self p rest)
    have hrest : ∀ q ∈ rest, getIncludeKey q.2 = q.1 :=
      fun q hq => hm q (List.mem_cons_of_mem _ hq)
    by_cases h : p.1 = k
    · simp [firstIncludeFor, lookupKey, h, hp]
    · have : ¬ getIncludeKey p.2 = k := by rw [hp]; exact h
      simp [firstIncludeFor, lookupKey, h, this, ih hrest]

/-! ## Lemmas about the schema merge -/

theorem dedupFirst_cons (x : String) (xs : List String) :
    dedupFirst (x :: xs) = x :: dedupFirst (xs.filter (fun y => y ≠ x)) := by
  simp [dedupFirst]

theorem mem_dedupFirst_aux :
    ∀ (bound : Nat) (l : List String), l.length ≤ bound →
      ∀ a, (a ∈ dedupFirst l ↔ a ∈ l) := by
  intro bound
  induction bound with
  | zero =>
    intro l h a
    have : l = [] := List.eq_nil_of_length_eq_zero (Nat.le_zero.mp h)
    subst this
    simp [dedupFirst]
  | succ b ih =>
    intro l h a
    match l with
    | [] => simp [dedupFirst]
    | x :: xs =>
      have hlen : (xs.filter (fun y => y ≠ x)).length ≤ b := by
        have h1 : (xs.filter (fun y => y ≠ x)).length ≤ xs.length :=
          List.length_filter_le _ _
        have h2 : xs.length ≤ b := by simpa using h
        omega
      rw [dedupFirst_cons, List.mem_cons, List.mem_cons, ih _ hlen a, List.mem_filter]
      by_cases hax : a = x
      · simp [hax]
      · simp [hax]

theorem mem_dedupFirst (l : List String) (a : String) : a ∈ dedupFirst l ↔ a ∈ l :=
  mem_dedupFirst_aux l.length l (le_refl _) a

theorem dedupFirst_append_aux :
    ∀ (bound : Nat) (l₁ : List String), l₁.length ≤ bound → ∀ (l₂ : List String),
      dedupFirst (l₁ ++ l₂) =
        dedupFirst l₁ ++ dedupFirst (l₂.filter (fun y => y ∉ l₁)) := by
  intro bound
  induction bound with
  | zero =>
    intro l₁ h l₂
    have : l₁ = [] := List.eq_nil_of_length_eq_zero (Nat.le_zero.mp h)
    subst this
    simp [dedupFirst]
  | succ b ih =>
    intro l₁ h l₂
    match l₁ with
    | [] => simp [dedupFirst]
    | x :: xs =>
      have hlen : (xs.filter (fun y => y ≠ x)).length ≤ b := by
        have h1 : (xs.filter (fun y => y ≠ x)).length ≤ xs.length :=
          List.length_filter_le _ _
        have h2 : xs.length ≤ b := by simpa using h
        omega
      have hfilters :
          (l₂.filter (fun y => y ≠ x)).filter (fun y => y ∉ xs.filter (fun z => z ≠ x)) =
            l₂.filter (fun y => y ∉ x :: xs) := by
        rw [List.filter_filter]
        apply List.filter_congr
        intro a _
        by_cases hax : a = x
        · simp [hax, List.mem_filter]
        · by_cases haxs : a ∈ xs <;> simp [hax, haxs, List.mem_filter]
      calc dedupFirst ((x :: xs) ++ l₂)
      _ = x :: dedupFirst ((xs ++ l₂).filter (fun y => y ≠ x)) := by
        rw [List.cons_append, dedupFirst_cons]
      _ = x :: dedupFirst (xs.filter (fun y => y ≠ x) ++ l₂.filter (fun y => y ≠ x)) := by
        rw [List.filter_append]
      _ = x :: (dedupFirst (xs.filter (fun y => y ≠ x)) ++
            dedupFirst ((l₂.filter (fun y => y ≠ x)).filter
              (fun y => y ∉ xs.filter (fun z => z ≠ x)))) := by
        rw [ih _ hlen]
      _ = dedupFirst (x :: xs) ++ dedupFirst (l₂.filter (fun y => y ∉ x :: xs)) := by
        rw [hfilters, dedupFirst_cons]
        simp

theorem dedupFirst_append (l₁ l₂ : List String) :
    dedupFirst (l₁ ++ l₂) =
      dedupFirst l₁ ++ dedupFirst (l₂.filter (fun y => y ∉ l₁)) :=
  dedupFirst_append_aux l₁.length l₁ (le_refl _) l₂

theorem addSchemas_eq (xs acc : List String) :
    addSchemas acc xs = acc ++ dedupFirst (xs.filter (fun s => s ∉ acc)) := by
  induction xs generalizing acc with
  | nil => simp [addSchemas, dedupFirst]
  | cons x xs ih =>
    by_cases hx : x ∈ acc
    · have hstep : addSchemas acc (x :: xs) = addSchemas acc xs := by
        simp [addSchemas, hx]
      rw [hstep, ih]
      simp [hx]
    · have hstep : addSchemas acc (x :: xs) = addSchemas (acc ++ [x]) xs := by
        simp [addSchemas, hx]
      rw [hstep, ih]
      have hfilters : xs.filter (fun s => s ∉ acc ++ [x]) =
          (xs.filter (fun s => s ∉ acc)).filter (fun y => y ≠ x) := by
        rw [List.filter_filter]
        apply List.filter_congr
        intro a _
        by_cases hax : a = x
        · simp [hax, hx]
        · by_cases ha : a ∈ acc <;> simp [hax, ha]
      rw [hfilters]
      simp [hx, dedupFirst_cons, List.append_assoc]

theorem mergeSchemas_spec (base override : Config) :
    (mergeConfigs base override).Schemas = dedupFirst (base.Schemas ++ override.Schemas) := by
  have h1 : addSchemas [] base.Schemas = dedupFirst base.Schemas := by
    rw [addSchemas_eq]
    have hf : base.Schemas.filter (fun s => s ∉ ([] : List String)) = base.Schemas :=
      List.filter_eq_self.mpr (fun a _ => by simp)
    rw [hf, List.nil_append]
  have h2 : (mergeConfigs base override).Schemas =
      addSchemas (addSchemas [] base.Schemas) override.Schemas := rfl
  rw [h2, h1, addSchemas_eq, dedupFirst_append]
  congr 1
  apply congrArg
  apply List.filter_congr
  intro a _
  simp [mem_dedupFirst]

/-! ## Claim C2: mergeConfigs -/

/-- C2.  For every pair of configs, `mergeConfigs base override` gives every
variable name present in both lists the override value (the override list's
last assignment for that name), gives every include identity key present in
both lists the override's include wholesale, and produces as schema list the
duplicate-free union keeping all of base's schemas first in order followed by
override's new ones. -/
theorem C2_mergeConfigs_override_wins :
    ∀ (base override : Config) (n k : String),
      (n ∈ base.Variables.map Variable.Name → n ∈ override.Variables.map Variable.Name →
        firstVarValue (mergeConfigs base override).Variables n =
          lastAssign override.Variables n) ∧
      (k ∈ base.Include.map getIncludeKey → k ∈ override.Include.map getIncludeKey →
        firstIncludeFor (mergeConfigs base override).Include k =
          lastIncludeFor override.Include k) ∧
      (mergeConfigs base override).Schemas =
        dedupFirst (base.Schemas ++ override.Schemas) := by
  intro base override n k
  refine ⟨?_, ?_, mergeSchemas_spec base override⟩
  · intro _ hover
    have hmap : (mergeConfigs base override).Variables =
        (insertVariables (insertVariables [] base.Variables) override.Variables).map
          (fun p => Variable.mk p.1 p.2) := rfl
    rw [hmap, firstVarValue_map, lookupKey_insertVariables]
    have := lastAssign_isSome override.Variables n hover
    cases h : lastAssign override.Variables n with
    | some x => rfl
    | none => rw [h] at this; simp at this
  · intro _ hover
    have hmap : (mergeConfigs base override).Include =
        (insertIncludes (insertIncludes [] base.Include) override.Include).map Prod.snd := rfl
    have hcons : ∀ p ∈ insertIncludes (insertIncludes [] base.Include) override.Include,
        getIncludeKey p.2 = p.1 := by
      apply insertIncludes_keyConsistent
      apply insertIncludes_keyConsistent
      intro p hp
      simp at hp
    rw [hmap, firstIncludeFor_map _ _ hcons, lookupKey_insertIncludes]
    have := lastIncludeFor_isSome override.Include k hover
    cases h : lastIncludeFor override.Include k with
    | some x => rfl
    | none => rw [h] at this; simp at this

/-- Witness for C2 on concrete configs: `x` is named in both variable lists,
`dep.yaml` is an include key of both, and the schema union is checked. -/
theorem C2_witness :
    firstVarValue (mergeConfigs cfgMergeBase cfgMergeOver).Variables "x" =
        lastAssign cfgMergeOver.Variables "x" ∧
      firstIncludeFor (mergeConfigs cfgMergeBase cfgMergeOver).Include "dep.yaml" =
        lastIncludeFor cfgMergeOver.Include "dep.yaml" ∧
      (mergeConfigs cfgMergeBase cfgMergeOver).Schemas =
        dedupFirst (cfgMergeBase.Schemas ++ cfgMergeOver.Schemas) :=
  ⟨(C2_mergeConfigs_override_wins cfgMergeBase cfgMergeOver "x" "dep.yaml").1
      (by decide) (by decide),
    (C2_mergeConfigs_override_wins cfgMergeBase cfgMergeOver "x" "dep.yaml").2.1
      (by decide) (by decide),
    (C2_mergeConfigs_override_wins cfgMergeBase cfgMergeOver "x" "dep.yaml").2.2⟩

/-! ## Lemmas about the loader -/

theorem loadGas_zero (fs : Fs) (p : String) (chain : List String) :
    loadGas fs 0 p chain = .error (.maxDepthExceeded p) := rfl

theorem loadGas_succ (fs : Fs) (g : Nat) (p : String) (chain : List String) :
    loadGas fs (g + 1) p chain = loadStep fs (loadGas fs g) p chain := rfl

theorem loadConfigWithResources_gas (fs : Fs) (p : String) (chain : List String)
    (d : Nat) :
    LoadConfigWithResources fs p chain d = loadGas fs (maxDepth + 1 - d) p chain := rfl

/-! ## Claim C4 (amended): order of the three guards -/

/-- C4 (amended).  The guards of `LoadConfigWithResources` run in the order
max-depth, circular-dependency, existence: a call past the depth limit fails
with the max-depth error regardless of the file system; within the limit a
path already in the load chain fails with the circular-dependency error
naming the chain; and only otherwise does a missing file produce the
not-found error. -/
theorem C4_guard_order :
    ∀ (fs : Fs) (p : String) (chain : List String) (d : Nat),
      (maxDepth < d →
        LoadConfigWithResources fs p chain d = .error (.maxDepthExceeded p)) ∧
      (d ≤ maxDepth → p ∈ chain →
        LoadConfigWithResources fs p chain d = .error (.circularDependency p chain)) ∧
      (d ≤ maxDepth → p ∉ chain → fs.stat p = none →
        LoadConfigWithResources fs p chain d = .error (.notFound p)) := by
  intro fs p chain d
  refine ⟨?_, ?_, ?_⟩
  · intro h
    have h5 : 5 < d := by simpa [maxDepth] using h
    have h0 : maxDepth + 1 - d = 0 := by simp [maxDepth]; omega
    rw [loadConfigWithResources_gas, h0, loadGas_zero]
  · intro h hmem
    have h5 : d ≤ 5 := by simpa [maxDepth] using h
    have h1 : maxDepth + 1 - d = (maxDepth - d) + 1 := by simp [maxDepth]; omega
    rw [loadConfigWithResources_gas, h1, loadGas_succ]
    simp [loadStep, hmem]
  · intro h hmem hstat
    have h5 : d ≤ 5 := by simpa [maxDepth] using h
    have h1 : maxDepth + 1 - d = (maxDepth - d) + 1 := by simp [maxDepth]; omega
    rw [loadConfigWithResources_gas, h1, loadGas_succ]
    simp [loadStep, hmem, hstat]

/-- Witness for C4 (amended): within the limits, a missing file is the
not-found error. -/
theorem C4_witness :
    LoadConfigWithResources fsEmpty "/cfg/missing.yaml" [] 0 =
      .error (.notFound "/cfg/missing.yaml") :=
  (C4_guard_order fsEmpty "/cfg/missing.yaml" [] 0).2.2 (by decide) (by decide) (by decide)

/-- Counterexample to C4 as stated: with the chain already past the maximum
depth, resolving a missing file reports the max-depth error, not the
not-found error the claim requires. -/
theorem C4_counterexample :
    LoadConfigWithResources fsEmpty "/cfg/missing.yaml"
        ["/p1", "/p2", "/p3", "/p4", "/p5", "/p6"] 6 =
      .error (.maxDepthExceeded "/cfg/missing.yaml") ∧
    LoadConfigWithResources fsEmpty "/cfg/missing.yaml"
        ["/p1", "/p2", "/p3", "/p4", "/p5", "/p6"] 6 ≠
      .error (.notFound "/cfg/missing.yaml") := by
  exact ⟨by decide, by decide⟩

/-! ## Claim C3: the depth bound -/

/-- C3 (amended).  A chain of seven configs fails with the max-depth error
and a chain of exactly five resolves successfully, as claimed; but the load
chain may reach six files without error (see the counterexample), because the
guard `depth > maxDepth` only rejects calls at depth six, i.e. a seventh
chained file.  In general every call past the depth limit fails immediately
with the max-depth error. -/
theorem C3_depth_bound :
    isOkE (LoadConfig fsChainFive "/cfg" "c0") = true ∧
    isMaxDepthCause (LoadConfig fsChainSeven "/cfg" "c0") = true ∧
    (∀ (fs : Fs) (p : String) (chain : List String) (d : Nat), maxDepth < d →
      LoadConfigWithResources fs p chain d = .error (.maxDepthExceeded p)) := by
  refine ⟨by decide, by decide, ?_⟩
  intro fs p chain d h
  exact (C4_guard_order fs p chain d).1 h

/-- Witness for C3 (amended): a call at depth six fails with the max-depth
error. -/
theorem C3_witness :
    LoadConfigWithResources fsEmpty "/cfg/x.yaml" [] 6 =
      .error (.maxDepthExceeded "/cfg/x.yaml") :=
  (C3_depth_bound).2.2 fsEmpty "/cfg/x.yaml" [] 6 (by decide)

/-- Counterexample to C3 as stated: a chain of six configs, each listing the
next as its single resource, resolves successfully, so the load chain exceeds
five files with no fatal error. -/
theorem C3_counterexample :
    isOkE (LoadConfig fsChainSix "/cfg" "c0") = true ∧
    fsChainSix.entries.length = 6 := by
  exact ⟨by decide, by decide⟩

/-! ## Claim C5: configs without resources -/

/-- C5 (amended).  A valid environment config that declares no `resources`
is returned verbatim (only annotated with environment and config dir): the
merge that deduplicates variable names and include keys never runs, so
duplicates present in the file are preserved. -/
theorem C5_no_resources_verbatim :
    ∀ (fs : Fs) (configDir env : String) (cfg : Config),
      fs.stat (envConfigPath configDir env) = some (.config cfg) →
      cfg.Resources = [] →
      LoadConfig fs configDir env =
        .ok { cfg with Environment := env, ConfigDir := configDir } := by
  intro fs configDir env cfg hstat hres
  have h6 : maxDepth + 1 - 0 = maxDepth + 1 := by simp
  have hload : loadGas fs (maxDepth + 1) (envConfigPath configDir env) [] = .ok cfg := by
    rw [show maxDepth + 1 = maxDepth + 1 from rfl, loadGas_succ]
    simp [loadStep, hstat, hres]
  simp [LoadConfig, loadConfigInternal, loadConfigWithResources_gas, h6, hload]

/-- Witness for C5 (amended) on the duplicate-listing fixture. -/
theorem C5_witness :
    LoadConfig fsDup "/cfg" "dup" =
      .ok { cfgDup with Environment := "dup", ConfigDir := "/cfg" } :=
  C5_no_resources_verbatim fsDup "/cfg" "dup" cfgDup (by decide) (by decide)

/-- Counterexample to C5 as stated: a resource-free config listing variable
name `a` twice and the include key `f.yaml` twice resolves to a Config whose
variable list and include list still carry the duplicates. -/
theorem C5_counterexample :
    LoadConfig fsDup "/cfg" "dup" =
      .ok (Config.mk "dup" "/cfg" [] []
        [Variable.mk "a" "1", Variable.mk "a" "2"]
        [Include.mk "f.yaml" "" [], Include.mk "f.yaml" "" []]) ∧
    ¬ ((Config.mk "dup" "/cfg" [] []
        [Variable.mk "a" "1", Variable.mk "a" "2"]
        [Include.mk "f.yaml" "" [], Include.mk "f.yaml" "" []]).Variables.map
          Variable.Name).Nodup ∧
    ¬ ((Config.mk "dup" "/cfg" [] []
        [Variable.mk "a" "1", Variable.mk "a" "2"]
        [Include.mk "f.yaml" "" [], Include.mk "f.yaml" "" []]).Include.map
          getIncludeKey).Nodup := by
  exact ⟨by decide, by decide, by decide⟩

/-! ## Claim C1: cycles -/

theorem loadDirFiles_ok_mem (recur : String → List String → Except LoadErr Config)
    (chain : List String) :
    ∀ (files : List String) (base out : Config),
      loadDirFiles recur chain files base = .ok out →
      ∀ f ∈ files, ∃ c, recur f chain = .ok c := by
  intro files
  induction files with
  | nil =>
    intro base out h f hf
    simp at hf
  | cons f0 rest ih =>
    intro base out h f hf
    simp only [loadDirFiles] at h
    cases hr : recur f0 chain with
    | error e => simp only [hr] at h; exact Except.noConfusion h
    | ok rc =>
      simp only [hr] at h
      rcases List.mem_cons.mp hf with hf | hf
      · subst hf; exact ⟨rc, hr⟩
      · exact ih _ _ h f hf

theorem loadResourceList_ok_target (fs : Fs)
    (recur : String → List String → Except LoadErr Config)
    (configPath : String) (chain : List String) :
    ∀ (resources : List String) (base out : Config),
      loadResourceList fs recur configPath chain resources base = .ok out →
      ∀ resource ∈ resources, ∀ q, resourceTarget fs configPath resource q →
        ∃ c, recur q chain = .ok c := by
  intro resources
  induction resources with
  | nil =>
    intro base out h r hr
    simp at hr
  | cons r0 rest ih =>
    intro base out h r hr q htarget
    simp only [loadResourceList] at h
    rcases List.mem_cons.mp hr with hr0 | hrrest
    · subst hr0
      rcases htarget with ⟨hnotdir, hq⟩ | ⟨entries, name, hdir, hname, hyaml, hq⟩
      · cases hstat : fs.stat (resolveResourcePath configPath r) with
        | none =>
          simp only [hstat] at h
          cases hrec : recur (resolveResourcePath configPath r) chain with
          | error e => simp only [hrec] at h; exact Except.noConfusion h
          | ok rc => exact ⟨rc, hq ▸ hrec⟩
        | some entry =>
          cases entry with
          | config cfg =>
            simp only [hstat] at h
            cases hrec : recur (resolveResourcePath configPath r) chain with
            | error e => simp only [hrec] at h; exact Except.noConfusion h
            | ok rc => exact ⟨rc, hq ▸ hrec⟩
          | badYaml =>
            simp only [hstat] at h
            cases hrec : recur (resolveResourcePath configPath r) chain with
            | error e => simp only [hrec] at h; exact Except.noConfusion h
            | ok rc => exact ⟨rc, hq ▸ hrec⟩
          | dir entries =>
            simp [Fs.isDirectory, hstat] at hnotdir
      · simp only [hdir] at h
        cases hload : loadDirFiles recur chain
            ((entries.filter isYamlName).map (joinPath (resolveResourcePath configPath r)))
            base with
        | error e => simp only [hload] at h; exact Except.noConfusion h
        | ok base2 =>
          simp only [hload] at h
          refine loadDirFiles_ok_mem recur chain _ _ _ hload q ?_
          rw [hq]
          exact List.mem_map.mpr ⟨name, List.mem_filter.mpr ⟨hname, hyaml⟩, rfl⟩
    · cases hstat : fs.stat (resolveResourcePath configPath r0) with
      | none =>
        simp only [hstat] at h
        cases hrec : recur (resolveResourcePath configPath r0) chain with
        | error e => simp only [hrec] at h; exact Except.noConfusion h
        | ok rc => exact ih _ _ (by simpa only [hrec] using h) r hrrest q htarget
      | some entry =>
        cases entry with
        | config cfg =>
          simp only [hstat] at h
          cases hrec : recur (resolveResourcePath configPath r0) chain with
          | error e => simp only [hrec] at h; exact Except.noConfusion h
          | ok rc => exact ih _ _ (by simpa only [hrec] using h) r hrrest q htarget
        | badYaml =>
          simp only [hstat] at h
          cases hrec : recur (resolveResourcePath configPath r0) chain with
          | error e => simp only [hrec] at h; exact Except.noConfusion h
          | ok rc => exact ih _ _ (by simpa only [hrec] using h) r hrrest q htarget
        | dir entries =>
          simp only [hstat] at h
          cases hload : loadDirFiles recur chain
              ((entries.filter isYamlName).map (joinPath (resolveResourcePath configPath r0)))
              base with
          | error e => simp only [hload] at h; exact Except.noConfusion h
          | ok base2 => exact ih _ _ (by simpa only [hload] using h) r hrrest q htarget

theorem dependsStep_ok_descend (fs : Fs) (p q : String) (hdep : dependsStep fs p q) :
    ∀ (g : Nat) (chain : List String) (c : Config),
      loadGas fs (g + 1) p chain = .ok c →
      ∃ chain2 c2, loadGas fs g q chain2 = .ok c2 := by
  obtain ⟨cfg, r, hstatp, hrmem, htarget⟩ := hdep
  intro g chain c hok
  rw [loadGas_succ] at hok
  simp only [loadStep] at hok
  by_cases hmem : p ∈ chain
  · rw [if_pos hmem] at hok; simp at hok
  · rw [if_neg hmem] at hok
    simp only [hstatp] at hok
    by_cases hres : cfg.Resources = []
    · rw [hres] at hrmem; simp at hrmem
    · rw [if_neg hres] at hok
      cases hload : loadResourceList fs (loadGas fs g) p (chain ++ [p]) cfg.Resources
          (Config.mk "" "" [] [] [] []) with
      | error e => simp only [hload] at hok; exact Except.noConfusion hok
      | ok base =>
        obtain ⟨c2, hc2⟩ :=
          loadResourceList_ok_target fs (loadGas fs g) p (chain ++ [p]) cfg.Resources
            _ _ hload r hrmem q htarget
        exact ⟨chain ++ [p], c2, hc2⟩

theorem transGen_ok_descend (fs : Fs) (a b : String)
    (h : Relation.TransGen (dependsStep fs) a b) :
    ∀ (g : Nat) (chain : List String) (c : Config),
      loadGas fs g a chain = .ok c →
      ∃ g2 chain2 c2, g2 < g ∧ loadGas fs g2 b chain2 = .ok c2 := by
  induction h with
  | single hstep =>
    intro g chain c hok
    cases g with
    | zero => rw [loadGas_zero] at hok; simp at hok
    | succ g =>
      obtain ⟨chain2, c2, h2⟩ := dependsStep_ok_descend fs _ _ hstep g chain c hok
      exact ⟨g, chain2, c2, Nat.lt_succ_self g, h2⟩
  | tail hab hbc ih =>
    intro g chain c hok
    obtain ⟨g1, chain1, c1, hlt, h1⟩ := ih g chain c hok
    cases g1 with
    | zero => rw [loadGas_zero] at h1; simp at h1
    | succ g1 =>
      obtain ⟨chain2, c2, h2⟩ := dependsStep_ok_descend fs _ _ hbc g1 chain1 c1 h1
      exact ⟨g1, chain2, c2, by omega, h2⟩

/-- C1 (amended).  When the environment file's `resources` chain transitively
reaches the file itself, resolution terminates (the embedding is a total
function) and never returns a Config: some fatal error is always produced.
(The error is the circular-dependency error naming the chain only when the
repeat is detected within the depth limit; a cycle closed past the limit
surfaces as the max-depth error instead — see the counterexample.) -/
theorem C1_cycle_never_resolves :
    ∀ (fs : Fs) (configDir env : String),
      Relation.TransGen (dependsStep fs) (envConfigPath configDir env)
        (envConfigPath configDir env) →
      isOkE (LoadConfig fs configDir env) = false := by
  intro fs configDir env hcyc
  have main : ∀ (g : Nat) (chain : List String) (c : Config),
      ¬ loadGas fs g (envConfigPath configDir env) chain = .ok c := by
    intro g
    induction g using Nat.strong_induction_on with
    | _ g ih =>
      intro chain c hok
      obtain ⟨g2, chain2, c2, hlt, h2⟩ := transGen_ok_descend fs _ _ hcyc g chain c hok
      exact ih g2 hlt chain2 c2 h2
  cases hload : loadGas fs (maxDepth + 1) (envConfigPath configDir env) [] with
  | error e =>
    simp [LoadConfig, loadConfigInternal, loadConfigWithResources_gas, Nat.sub_zero,
      hload, isOkE]
  | ok cfg => exact absurd hload (main _ _ _)

/-- Witness for C1 (amended): a direct self-cycle never resolves. -/
theorem C1_witness : isOkE (LoadConfig fsSelfCycle "/cfg" "a") = false := by
  apply C1_cycle_never_resolves
  refine Relation.TransGen.single ?_
  refine ⟨cfgRes ["a.yaml"], "a.yaml", by decide, by decide, Or.inl ⟨by decide, by decide⟩⟩

/-- Counterexample to C1 as stated: in a cycle of six files the repeated path
is only reached at depth six, so resolution fails with the max-depth error,
not the circular-dependency error the claim requires. -/
theorem C1_counterexample :
    isOkE (LoadConfig fsCycleSix "/cfg" "a") = false ∧
    isCircularCause (LoadConfig fsCycleSix "/cfg" "a") = false ∧
    isMaxDepthCause (LoadConfig fsCycleSix "/cfg" "a") = true := by
  exact ⟨by decide, by decide, by decide⟩

/-! ## Lemmas about the validation driver -/

theorem vdocStep_err (lib : K8sLib) (registry : Option SchemaRegistry)
    (acc : Nat × Nat × Nat) (d : VDoc) :
    (vdocStep lib registry acc d).1 =
      acc.1 + (if docError lib registry d then 1 else 0) := by
  cases d with
  | blank => simp [vdocStep, docError]
  | malformed => simp [vdocStep, docError]
  | parsedNil => simp [vdocStep, docError]
  | doc manifest =>
    by_cases hav : (lookupKey manifest "apiVersion").isSome = false ∨
        (lookupKey manifest "kind").isSome = false
    · simp only [vdocStep, docError, if_pos hav]
      simp
    · simp only [vdocStep, docError, if_neg hav]
      cases registry with
      | none =>
        cases hv : validateKubernetesResource lib manifest <;>
          simp [basicCountStep, hv]
      | some sr =>
        rcases hcr : ValidateCustomResource sr manifest with ⟨b, err⟩
        cases b with
        | true =>
          cases err with
          | some e => simp [hcr]
          | none => simp [hcr]
        | false =>
          cases hv : validateKubernetesResource lib manifest <;>
            simp [hcr, basicCountStep, hv]

theorem foldl_vdocStep_err (lib : K8sLib) (registry : Option SchemaRegistry) :
    ∀ (docs : List VDoc) (acc : Nat × Nat × Nat),
      (docs.foldl (vdocStep lib registry) acc).1 =
        acc.1 + (docs.map (fun d => if docError lib registry d then 1 else 0)).sum := by
  intro docs
  induction docs with
  | nil => intro acc; simp
  | cons d rest ih =>
    intro acc
    simp only [List.foldl_cons, List.map_cons, List.sum_cons]
    rw [ih, vdocStep_err]
    omega

theorem vfileStep_err (lib : K8sLib) (registry : Option SchemaRegistry)
    (acc : Nat × Nat × Nat) (f : VFile) :
    (vfileStep lib registry acc f).1 = acc.1 + fileErrors lib registry f := by
  cases f with
  | unreadable name => simp [vfileStep, fileErrors]
  | content name docs => simp [vfileStep, fileErrors, foldl_vdocStep_err]

theorem foldl_vfileStep_err (lib : K8sLib) (registry : Option SchemaRegistry) :
    ∀ (files : List VFile) (acc : Nat × Nat × Nat),
      (files.foldl (vfileStep lib registry) acc).1 =
        acc.1 + (files.map (fileErrors lib registry)).sum := by
  intro files
  induction files with
  | nil => intro acc; simp
  | cons f rest ih =>
    intro acc
    simp only [List.foldl_cons, List.map_cons, List.sum_cons]
    rw [ih, vfileStep_err]
    omega

/-! ## Claim C6: validation never halts early -/

/-- C6.  Manifest validation scans every document of every file: the overall
result is `true` exactly when the per-file error counts — computed
document-by-document, independently of any earlier failure — sum to zero.
Warnings never count: a blank chunk and a nil document are skipped, a
document without `apiVersion` or `kind` is informational, and a recognized
custom resource that validates (in particular one merely missing `spec`)
contributes no error. -/
theorem C6_validation_accumulates :
    ∀ (lib : K8sLib) (registry : Option SchemaRegistry) (files : List VFile),
      (validateKubernetesManifests lib registry files = true ↔
        (files.map (fileErrors lib registry)).sum = 0) ∧
      (docError lib registry VDoc.blank = false) ∧
      (docError lib registry VDoc.parsedNil = false) ∧
      (∀ m : Manifest, lookupKey m "apiVersion" = none ∨ lookupKey m "kind" = none →
        docError lib registry (VDoc.doc m) = false) ∧
      (∀ (sr : SchemaRegistry) (m : Manifest),
        ValidateCustomResource sr m = (true, none) →
        docError lib (some sr) (VDoc.doc m) = false) := by
  intro lib registry files
  refine ⟨?_, rfl, rfl, ?_, ?_⟩
  · cases files with
    | nil => simp [validateKubernetesManifests]
    | cons f rest =>
      have h := foldl_vfileStep_err lib registry (f :: rest) (0, 0, 0)
      have hne : validateKubernetesManifests lib registry (f :: rest) =
          decide ((List.foldl (vfileStep lib registry) (0, 0, 0) (f :: rest)).1 = 0) := rfl
      rw [hne, decide_eq_true_eq, h]
      simp
  · intro m hm
    rcases hm with hm | hm <;> simp [docError, hm]
  · intro sr m hcr
    by_cases hav : (lookupKey m "apiVersion").isSome = false ∨
        (lookupKey m "kind").isSome = false
    · simp only [docError, if_pos hav]
    · simp only [docError, if_neg hav, hcr]

/-- Witness for C6: a document with no apiVersion is skipped without error,
and a recognized custom resource without `spec` contributes no error. -/
theorem C6_witness :
    docError lib0 none (VDoc.doc mOnlyMetadata) = false ∧
    docError lib0 (some regWidget) (VDoc.doc mWidgetOk) = false :=
  ⟨(C6_validation_accumulates lib0 none []).2.2.2.1 mOnlyMetadata (Or.inl rfl),
    (C6_validation_accumulates lib0 (some regWidget) []).2.2.2.2 regWidget mWidgetOk
      (by decide)⟩

/-! ## Claim C7: custom-resource validation -/

/-- C7.  A manifest whose GroupVersionKind is registered is always reported
as a recognized custom resource, and the validation error is present exactly
when `metadata` is missing, not an object, or lacks a string `name`; the
`spec` field plays no role in the verdict (its absence only prints a
warning). -/
theorem C7_custom_resource_validation :
    ∀ (sr : SchemaRegistry) (m : Manifest) (apiV kindS : String)
      (gv : GroupVersion) (crd : Crd),
      lookupKey m "apiVersion" = some (Yaml.str apiV) →
      lookupKey m "kind" = some (Yaml.str kindS) →
      parseGroupVersion apiV = .ok gv →
      lookupKey sr.crds (GVK.mk gv.group gv.version kindS) = some crd →
      (ValidateCustomResource sr m).1 = true ∧
      ((ValidateCustomResource sr m).2 = none ↔ crMetadataOk m = true) := by
  intro sr m apiV kindS gv crd hav hk hgv hcrd
  have hval : ValidateCustomResource sr m = (true, validateBasicCRStructure m crd) := by
    simp only [ValidateCustomResource, hav, hk, hgv, hcrd]
  rw [hval]
  refine ⟨rfl, ?_⟩
  simp only [validateBasicCRStructure, crMetadataOk]
  cases hmd : lookupKey m "metadata" with
  | none => simp
  | some y =>
    cases y with
    | obj fields =>
      cases hname : lookupKey fields "name" with
      | none => simp [hname]
      | some v => cases v <;> simp [hname]
    | null => simp
    | str s => simp
    | num n => simp
    | bool b => simp
    | arr items => simp

/-- Witness for C7 on the Widget registry: a manifest with metadata name and
no spec passes (recognized, no error), one without a name is recognized but
errors. -/
theorem C7_witness :
    ((ValidateCustomResource regWidget mWidgetOk).1 = true ∧
      ((ValidateCustomResource regWidget mWidgetOk).2 = none ↔
        crMetadataOk mWidgetOk = true)) ∧
    ((ValidateCustomResource regWidget mWidgetNoName).1 = true ∧
      ((ValidateCustomResource regWidget mWidgetNoName).2 = none ↔
        crMetadataOk mWidgetNoName = true)) :=
  ⟨C7_custom_resource_validation regWidget mWidgetOk "example.com/v1" "Widget"
      (GroupVersion.mk "example.com" "v1") crdWidget rfl rfl (by decide) rfl,
    C7_custom_resource_validation regWidget mWidgetNoName "example.com/v1" "Widget"
      (GroupVersion.mk "example.com" "v1") crdWidget rfl rfl (by decide) rfl⟩

/-! ## Lemmas about the schema registry loader -/

theorem lookupKey_registerCRD (reg : SchemaRegistry) (c : Crd) (g v k : String) :
    lookupKey (registerCRD reg c).crds (GVK.mk g v k) =
      if g = c.group ∧ k = c.kindName ∧ v ∈ c.versions then some c
      else lookupKey reg.crds (GVK.mk g v k) := by
  have aux : ∀ (vs : List String) (m : List (GVK × Crd)),
      lookupKey (vs.foldl (fun acc vv => upsert acc (GVK.mk c.group vv c.kindName) c) m)
          (GVK.mk g v k) =
        if g = c.group ∧ k = c.kindName ∧ v ∈ vs then some c
        else lookupKey m (GVK.mk g v k) := by
    intro vs
    induction vs with
    | nil => intro m; simp
    | cons v0 vs ih =>
      intro m
      simp only [List.foldl_cons]
      rw [ih, lookupKey_upsert]
      by_cases hkey : GVK.mk c.group v0 c.kindName = GVK.mk g v k
      · obtain ⟨h1, h2, h3⟩ : c.group = g ∧ v0 = v ∧ c.kindName = k := by
          simpa [GVK.mk.injEq] using hkey
        have hcons : g = c.group ∧ k = c.kindName ∧ v ∈ v0 :: vs :=
          ⟨h1.symm, h3.symm, by rw [← h2]; exact List.mem_cons_self v0 vs⟩
        by_cases hvs : g = c.group ∧ k = c.kindName ∧ v ∈ vs
        · rw [if_pos hvs, if_pos hcons]
        · rw [if_neg hvs, if_pos hkey, if_pos hcons]
      · have hiff : (g = c.group ∧ k = c.kindName ∧ v ∈ v0 :: vs) ↔
            (g = c.group ∧ k = c.kindName ∧ v ∈ vs) := by
          constructor
          · rintro ⟨h1, h2, h3⟩
            rcases List.mem_cons.mp h3 with h4 | h4
            · exact absurd (by rw [h1, h2, h4]) hkey
            · exact ⟨h1, h2, h4⟩
          · rintro ⟨h1, h2, h3⟩
            exact ⟨h1, h2, List.mem_cons_of_mem _ h3⟩
        by_cases hvs : g = c.group ∧ k = c.kindName ∧ v ∈ vs
        · rw [if_pos hvs, if_pos (hiff.mpr hvs)]
        · rw [if_neg hvs, if_neg hkey, if_neg (fun hc => hvs (hiff.mp hc))]
  exact aux c.versions reg.crds

theorem registerAll_append (reg : SchemaRegistry) (a b : List Crd) :
    registerAll reg (a ++ b) = registerAll (registerAll reg a) b := by
  simp [registerAll, List.foldl_append]

theorem loadFromContent_eq :
    ∀ (docs : List SchemaDoc) (reg : SchemaRegistry) (n : Nat),
      docs.foldl
          (fun acc d =>
            match parseCRDResult d with
            | none => acc
            | some c => (registerCRD acc.1 c, acc.2 + 1))
          (reg, n) =
        (registerAll reg (docs.filterMap parseCRDResult),
          n + (docs.filterMap parseCRDResult).length) := by
  intro docs
  induction docs with
  | nil => intro reg n; simp [registerAll]
  | cons d rest ih =>
    intro reg n
    cases hd : parseCRDResult d with
    | none =>
      simp only [List.foldl_cons, hd]
      rw [ih]
      simp [List.filterMap_cons, hd]
    | some c =>
      simp only [List.foldl_cons, hd]
      rw [ih]
      simp only [List.filterMap_cons, hd, registerAll, List.foldl_cons, List.length_cons,
        Prod.mk.injEq]
      exact ⟨trivial, by omega⟩

theorem loadFromContent_spec (reg : SchemaRegistry) (docs : List SchemaDoc) :
    loadFromContent reg docs =
      (registerAll reg (docs.filterMap parseCRDResult),
        (docs.filterMap parseCRDResult).length) := by
  have h := loadFromContent_eq docs reg 0
  simpa [loadFromContent] using h

theorem loadFromDirectory_fst :
    ∀ (files : List (String × List SchemaDoc)) (reg : SchemaRegistry) (n : Nat),
      (files.foldl
          (fun acc f =>
            if isYamlLower f.1 then
              let r := loadFromContent acc.1 f.2
              (r.1, acc.2 + r.2)
            else acc)
          (reg, n)).1 =
        registerAll reg
          ((files.filter (fun f => isYamlLower f.1)).flatMap
            (fun f => f.2.filterMap parseCRDResult)) := by
  intro files
  induction files with
  | nil => intro reg n; simp [registerAll]
  | cons f rest ih =>
    intro reg n
    cases hy : isYamlLower f.1 with
    | true =>
      simp only [List.foldl_cons, hy, if_true]
      rw [ih, loadFromContent_spec]
      simp [List.filter_cons, hy, registerAll_append]
    | false =>
      simp only [List.foldl_cons, hy, if_false]
      rw [ih]
      simp [List.filter_cons, hy]

theorem loadFromDirectory_spec (reg : SchemaRegistry) (files : List (String × List SchemaDoc)) :
    (loadFromDirectory reg files).1 =
      registerAll reg
        ((files.filter (fun f => isYamlLower f.1)).flatMap
          (fun f => f.2.filterMap parseCRDResult)) :=
  loadFromDirectory_fst files reg 0

theorem loadFromSource_isOk (net : Net) (sfs : SchemaFs) (reg : SchemaRegistry)
    (src : String) :
    isOkE (loadFromSource net sfs reg src) = sourceLoadOk net sfs src := by
  by_cases hurl : isURL src
  · simp only [loadFromSource, sourceLoadOk, if_pos hurl]
    cases hnet : net src with
    | transportError => simp [loadFromURL, hnet, isOkE]
    | response st body =>
      by_cases hst : st = 200
      · simp [loadFromURL, hnet, hst, isOkE]
      · simp [loadFromURL, hnet, hst, isOkE]
  · simp only [loadFromSource, sourceLoadOk, if_neg hurl]
    cases hsfs : sfs src with
    | none => simp [isOkE]
    | some entry => cases entry <;> simp [isOkE]

theorem loadFromSource_ok_spec (net : Net) (sfs : SchemaFs) (reg : SchemaRegistry)
    (src : String) (hok : sourceLoadOk net sfs src = true) :
    ∃ n, loadFromSource net sfs reg src =
      .ok (registerAll reg (sourceCrds net sfs src), n) := by
  by_cases hurl : isURL src
  · simp only [sourceLoadOk, if_pos hurl] at hok
    cases hnet : net src with
    | transportError => rw [hnet] at hok; simp at hok
    | response st body =>
      rw [hnet] at hok
      have hst : st = 200 := by simpa using hok
      refine ⟨(body.filterMap parseCRDResult).length, ?_⟩
      simp [loadFromSource, loadFromURL, hurl, hnet, hst, loadFromContent_spec,
        sourceCrds]
  · simp only [sourceLoadOk, if_neg hurl] at hok
    cases hsfs : sfs src with
    | none => rw [hsfs] at hok; simp at hok
    | some entry =>
      cases entry with
      | file docs =>
        refine ⟨(docs.filterMap parseCRDResult).length, ?_⟩
        simp [loadFromSource, hurl, hsfs, loadFromContent_spec, sourceCrds]
      | dir files =>
        refine ⟨(loadFromDirectory reg files).2, ?_⟩
        simp only [loadFromSource, if_neg hurl, hsfs, sourceCrds]
        rw [← loadFromDirectory_spec reg files]

theorem LoadSchemas_fold (net : Net) (sfs : SchemaFs) :
    ∀ (sources : List String) (reg : SchemaRegistry) (n : Nat),
      (sources.foldl
          (fun acc src =>
            match loadFromSource net sfs acc.1 src with
            | .error _ => acc
            | .ok r => (r.1, acc.2 + r.2))
          (reg, n)).1 =
        registerAll reg
          (sources.flatMap
            (fun s => if sourceLoadOk net sfs s then sourceCrds net sfs s else [])) := by
  intro sources
  induction sources with
  | nil => intro reg n; simp [registerAll]
  | cons src rest ih =>
    intro reg n
    by_cases hok : sourceLoadOk net sfs src = true
    · obtain ⟨cnt, hsrc⟩ := loadFromSource_ok_spec net sfs reg src hok
      simp only [List.foldl_cons, hsrc]
      rw [ih]
      simp [List.flatMap_cons, hok, registerAll_append]
    · have hisok : isOkE (loadFromSource net sfs reg src) = false := by
        rw [loadFromSource_isOk]
        simpa using hok
      cases hsrc : loadFromSource net sfs reg src with
      | ok r => rw [hsrc] at hisok; simp [isOkE] at hisok
      | error e =>
        simp only [List.foldl_cons, hsrc]
        rw [ih]
        simp [List.flatMap_cons, hok]

/-! ## Claim C8 (amended): best-effort schema loading -/

/-- C8 (amended).  `LoadSchemas` is best-effort: it always returns success,
and the final registry is exactly the starting registry extended by the CRDs
of every source that loads, each CRD registered once per declared version
(keyed by group, version name and kind); a failing source only skips its own
contribution.  A URL source fails exactly when a transport error occurs or
the HTTP status is not exactly 200 — not, as claimed, only when the status is
outside the 2xx range (see the counterexample at status 201). -/
theorem C8_best_effort_loading :
    ∀ (net : Net) (sfs : SchemaFs) (reg : SchemaRegistry) (sources : List String)
      (url : String) (st : Nat) (body : List SchemaDoc) (c : Crd) (g v k : String),
      (LoadSchemas net sfs reg sources =
        .ok (registerAll reg
          (sources.flatMap
            (fun s => if sourceLoadOk net sfs s then sourceCrds net sfs s else [])))) ∧
      (net url = .response st body →
        (isOkE (loadFromURL net reg url) = true ↔ st = 200)) ∧
      (net url = .transportError → isOkE (loadFromURL net reg url) = false) ∧
      (lookupKey (registerCRD reg c).crds (GVK.mk g v k) =
        if g = c.group ∧ k = c.kindName ∧ v ∈ c.versions then some c
        else lookupKey reg.crds (GVK.mk g v k)) := by
  intro net sfs reg sources url st body c g v k
  refine ⟨?_, ?_, ?_, lookupKey_registerCRD reg c g v k⟩
  · have h := LoadSchemas_fold net sfs sources reg 0
    have hdef : LoadSchemas net sfs reg sources =
        .ok ((sources.foldl
          (fun acc src =>
            match loadFromSource net sfs acc.1 src with
            | .error _ => acc
            | .ok r => (r.1, acc.2 + r.2))
          (reg, 0)).1) := rfl
    rw [hdef, h]
  · intro hnet
    by_cases hst : st = 200
    · simp [loadFromURL, hnet, hst, isOkE]
    · simp [loadFromURL, hnet, hst, isOkE]
  · intro hnet
    simp [loadFromURL, hnet, isOkE]

/-- Witness for C8 (amended): a 200 response loads, a transport error fails,
and the Widget CRD is registered under its declared version. -/
theorem C8_witness :
    (isOkE (loadFromURL net200 reg0 "http://crds.example/all.yaml") = true ↔
      (200 : Nat) = 200) ∧
    isOkE (loadFromURL netDown reg0 "http://crds.example/all.yaml") = false :=
  ⟨(C8_best_effort_loading net200 sfsEmpty reg0 [] "http://crds.example/all.yaml" 200
      [SchemaDoc.crd crdWidget] crdWidget "" "" "").2.1 rfl,
    (C8_best_effort_loading netDown sfsEmpty reg0 [] "http://crds.example/all.yaml" 0 []
      crdWidget "" "" "").2.2.1 rfl⟩

/-- Counterexample to C8 as stated: an HTTP 201 response is inside the 2xx
range, yet `loadFromURL` fails for it (the code tests for exactly 200), so
the CRD in the body is not registered. -/
theorem C8_counterexample :
    isOkE (loadFromURL net201 reg0 "http://crds.example/all.yaml") = false ∧
    (200 ≤ 201 ∧ 201 < 300) := by
  exact ⟨by decide, by decide⟩

/-! ## Claim C9 (amended): the trailing newline of simple expansion -/

theorem strHasAtEnd_append_newline (s : String) :
    strHasAtEnd (s ++ "\n") "\n" = true := by
  have h1 : ("\n" : String).data = ['\n'] := rfl
  show ("\n".data.reverse.isPrefixOf (s ++ "\n").data.reverse) = true
  rw [String.data_append, h1]
  simp [List.isPrefixOf]

/-- C9 (amended).  When rendering succeeds, simple (repeat-mode None)
expansion writes the rendered text with at least one trailing newline: one
newline is appended exactly when the rendered text does not already end with
one, and a rendered text that already ends with newline characters is written
unchanged — so two or more trailing newlines in the rendered text are
preserved, not reduced to one (see the counterexample). -/
theorem C9_trailing_newline :
    ∀ (render : RenderOracle) (content : String) (vars : List (String × String))
      (rendered : String),
      render content vars = some rendered →
      ProcessSimpleFile render content vars = some (ensureTrailingNewline rendered) ∧
      strHasAtEnd (ensureTrailingNewline rendered) "\n" = true ∧
      (strHasAtEnd rendered "\n" = true → ensureTrailingNewline rendered = rendered) ∧
      (strHasAtEnd rendered "\n" = false →
        ensureTrailingNewline rendered = rendered ++ "\n") := by
  intro render content vars rendered hr
  refine ⟨by simp [ProcessSimpleFile, hr], ?_, ?_, ?_⟩
  · by_cases he : strHasAtEnd rendered "\n" = true
    · simpa [ensureTrailingNewline, he] using he
    · have he2 : strHasAtEnd rendered "\n" = false := by
        cases h : strHasAtEnd rendered "\n"
        · rfl
        · exact absurd h he
      simp [ensureTrailingNewline, he2, strHasAtEnd_append_newline]
  · intro he
    simp [ensureTrailingNewline, he]
  · intro he
    simp [ensureTrailingNewline, he]

/-- Witness for C9 (amended) on the identity rendering of a template without
a trailing newline. -/
theorem C9_witness :
    ProcessSimpleFile renderId "kind: A" [] =
        some (ensureTrailingNewline "kind: A") ∧
      strHasAtEnd (ensureTrailingNewline "kind: A") "\n" = true ∧
      (strHasAtEnd "kind: A" "\n" = true → ensureTrailingNewline "kind: A" = "kind: A") ∧
      (strHasAtEnd "kind: A" "\n" = false →
        ensureTrailingNewline "kind: A" = "kind: A" ++ "\n") :=
  C9_trailing_newline renderId "kind: A" [] "kind: A" rfl

/-- Counterexample to C9 as stated: rendered text already ending in two
newlines is written unchanged, so the output ends with two newline
characters, not exactly one. -/
theorem C9_counterexample :
    ProcessSimpleFile renderId "kind: A\n\n" [] = some "kind: A\n\n" ∧
    "kind: A\n\n".data.getLast? = some '\n' ∧
    "kind: A\n\n".data.dropLast.getLast? = some '\n' := by
  exact ⟨by decide, by decide, by decide⟩

/-! ## Claim C10: unknown repeat types abort the build -/

/-- C10.  If every include before it processes successfully, an include whose
`repeat` is neither empty, `same-file` nor `multiple-files` makes the Build
include loop fail with the unknown-repeat-type error naming that value — and
the result does not depend on the includes after it, which are never
processed. -/
theorem C10_unknown_repeat_aborts :
    ∀ (procs : IncludeProcessors) (pre : List Include) (bad : Include)
      (rest : List Include),
      (∀ inc ∈ pre, processOneInclude procs inc = .ok ()) →
      bad.Repeat ≠ "" → bad.Repeat ≠ "same-file" → bad.Repeat ≠ "multiple-files" →
      processIncludeList procs (pre ++ bad :: rest) =
        .error (.unknownRepeatType bad.Repeat) := by
  intro procs pre
  induction pre with
  | nil =>
    intro bad rest hpre h1 h2 h3
    have hbad : processOneInclude procs bad = .error (.unknownRepeatType bad.Repeat) := by
      simp [processOneInclude, h1, h2, h3]
    simp only [List.nil_append, processIncludeList, hbad]
  | cons inc pre ih =>
    intro bad rest hpre h1 h2 h3
    have hinc := hpre inc (List.mem_cons_self inc pre)
    simp only [List.cons_append, processIncludeList, hinc]
    exact ih bad rest (fun i hi => hpre i (List.mem_cons_of_mem _ hi)) h1 h2 h3

/-- Witness for C10: a weird repeat mode in the middle of the include list
aborts with the unknown-repeat-type error, whatever follows. -/
theorem C10_witness :
    processIncludeList procsOk [incSimple, incBad, incSimple] =
      .error (.unknownRepeatType "weird-mode") :=
  C10_unknown_repeat_aborts procsOk [incSimple] incBad [incSimple]
    (by
      intro inc hi
      rw [List.mem_singleton] at hi
      subst hi
      decide)
    (by decide) (by decide) (by decide)

end Miko
